import Mathlib

/-!
Verification of the mountebank imposter-engine specification.

The repository ships only the functional test
`src/functionalTest/api/tcp/tcpInjectionTest.js`; the engine itself
(frame assembly, predicate evaluation, response resolution, injection
sandbox, imposter lifecycle) is not under `src/`.  All engine
definitions below are therefore modelled from the specification, and
checked against the behaviour the functional test observes.
-/

namespace Mountebank

/-- Decoded application-level messages for the TCP text-mode engine. -/
abbrev Msg := String

/-- Response payloads written back to the client. -/
abbrev Payload := String

/-- Per-stub mutable call state: an opaque key-value store, modelled as an
association list from keys to natural-number values. -/
abbrev CallState := List (String × Nat)

/-- Look a key up in the call state. -/
def stateGet (st : CallState) (k : String) : Option Nat :=
  (st.find? (fun kv => kv.1 == k)).map (fun kv => kv.2)

/-- Store a key in the call state. -/
def stateSet (st : CallState) (k : String) (v : Nat) : CallState :=
  (k, v) :: st.filter (fun kv => kv.1 != k)

/-- Modelled from the spec: outcome of invoking an injected predicate in
the sandbox (the implementation of the Injection Sandbox is not under
`src/`).  `ok b` is a boolean result; `err` covers both a thrown
exception and a non-boolean return, which the spec treats alike as a
fatal predicate error. -/
inductive PredResult
  | ok (b : Bool)
  | err
deriving DecidableEq, Repr

/-- Modelled from the spec: a configured predicate.  The claims only
exercise injected predicates, which receive the decoded message as sole
input; the sandbox invocation is modelled by applying the stored
function. -/
inductive Predicate
  | injectPred (fn : Msg → PredResult)

/-- Modelled from the spec: a configured response variant.  `is` echoes a
literal payload; `injectResp` is a synchronous injected response
transform receiving the message and the per-stub mutable call state and
returning the payload together with the updated state. -/
inductive Response
  | is (p : Payload)
  | injectResp (fn : Msg → CallState → Payload × CallState)

/-- Modelled from the spec: a stub — ordered predicates (implicit AND),
ordered responses consumed round-robin via a use-counter, and the
per-stub mutable call state (lifetime bound to the imposter). -/
structure Stub where
  predicates : List Predicate
  responses : List Response
  useCount : Nat := 0
  state : CallState := []

/-- Modelled from the spec: an imposter — an ordered stub list plus the
protocol-specific default produced when no stub matches (for TCP,
an empty acknowledgment). -/
structure Imposter where
  stubs : List Stub
  defaultResponse : Payload := ""

/-- Evaluate one predicate on a message (sandbox invocation). -/
def evalPredicate (p : Predicate) (msg : Msg) : PredResult :=
  match p with
  | .injectPred fn => fn msg

/-- Per-predicate outcome recorded while scanning a stub's predicate
list; `isError` is the logged fatal predicate error. -/
inductive PredOutcome
  | isTrue
  | isFalse
  | isError
deriving DecidableEq, Repr

/-- Modelled from the spec: evaluate a stub's predicate list on a
message.  The predicates are ANDed with short-circuit: the first
`false` stops the scan, and a thrown/non-boolean result stops the scan,
marks the stub as not matching and logs the error.  Returns the match
verdict together with the list of recorded outcomes (one per predicate
actually evaluated, in order). -/
def evalPredList (msg : Msg) : List Predicate → Bool × List PredOutcome
  | [] => (true, [])
  | p :: ps =>
    match evalPredicate p msg with
    | .ok true =>
      let r := evalPredList msg ps
      (r.1, .isTrue :: r.2)
    | .ok false => (false, [.isFalse])
    | .err => (false, [.isError])

/-- A stub matches a message when all its predicates evaluate to true. -/
def stubMatches (msg : Msg) (s : Stub) : Bool :=
  (evalPredList msg s.predicates).1

/-- The response a stub will consume on its next match: round-robin over
the response list indexed by the use-counter. -/
def responseUsed (s : Stub) : Response :=
  s.responses.getD (s.useCount % s.responses.length) (.is "")

/-- Modelled from the spec: resolve the selected stub's next response.
The use-counter advances by one on every match; an injected response
additionally updates the per-stub call state, which is threaded by
reference (here: stored back into the stub). -/
def respondWith (msg : Msg) (s : Stub) : Payload × Stub :=
  match responseUsed s with
  | .is p => (p, { s with useCount := s.useCount + 1 })
  | .injectResp fn =>
    let r := fn msg s.state
    (r.1, { s with useCount := s.useCount + 1, state := r.2 })

/-- Modelled from the spec: linear scan of the stub list in declaration
order.  The first stub whose predicates all hold answers the message
(its counter/state updated in place); `none` signals "no stub
matched". -/
def handleStubs (msg : Msg) : List Stub → Option (Payload × List Stub)
  | [] => none
  | s :: rest =>
    if stubMatches msg s then
      let r := respondWith msg s
      some (r.1, r.2 :: rest)
    else
      match handleStubs msg rest with
      | none => none
      | some pr => some (pr.1, s :: pr.2)

/-- Modelled from the spec: handle one decoded message against an
imposter — select a stub, resolve its response, or fall back to the
imposter-level default when no stub matched. -/
def handleMessage (imp : Imposter) (msg : Msg) : Payload × Imposter :=
  match handleStubs msg imp.stubs with
  | none => (imp.defaultResponse, imp)
  | some pr => (pr.1, { imp with stubs := pr.2 })

/-! ### Frame Assembler (modelled from the spec, §4.1) -/

/-- Raw transport bytes. -/
abbrev Bytes := List Nat

/-- State of the Frame Assembler for one connection: the accumulation
buffer, the messages emitted so far, and the exact buffers the boundary
resolver has been invoked on (for auditing the faithful-concatenation
contract). -/
structure FeedState where
  buffer : Bytes
  emitted : List Bytes
  invoked : List Bytes
deriving DecidableEq, Repr

/-- Modelled from the spec: one step of the Frame Assembler (the stream
accumulation logic of the TCP server is not under `src/`).  On each new
chunk it appends to the buffer, then asks the boundary resolver whether
the buffer now holds exactly one complete message; if so the buffer is
emitted as the message and cleared. -/
def feedChunk (resolver : Bytes → Bool) (st : FeedState) (chunk : Bytes) :
    FeedState :=
  let buf := st.buffer ++ chunk
  if resolver buf then
    { buffer := [], emitted := st.emitted ++ [buf], invoked := st.invoked ++ [buf] }
  else
    { buffer := buf, emitted := st.emitted, invoked := st.invoked ++ [buf] }

/-- Feed a whole sequence of chunks to the Frame Assembler, starting
from an empty connection buffer. -/
def feedChunks (resolver : Bytes → Bool) (chunks : List Bytes) : FeedState :=
  chunks.foldl (feedChunk resolver) ⟨[], [], []⟩

/-! ### Imposter creation and injection validation (modelled from the
spec, §4.3, §4.5, §6, §7) -/

/-- A structured validation error with a stable machine-readable code. -/
structure ValidationError where
  code : String
deriving DecidableEq, Repr

/-- Modelled from the spec: a stub as declared in a creation request. -/
structure StubDef where
  predicates : List Predicate
  responses : List Response

/-- Modelled from the spec: an imposter-creation request — protocol
port, declared stubs, and whether a custom injected end-of-request
resolver is declared. -/
structure CreateRequest where
  port : Nat
  stubs : List StubDef
  injectedResolver : Bool := false

/-- Does a predicate declaration use injection?  (The model carries only
the injected predicate variant, so this is always true; kept as a
definition mirroring the config-validation check.) -/
def predicateUsesInjection : Predicate → Bool
  | .injectPred _ => true

/-- Does a response declaration use injection? -/
def responseUsesInjection : Response → Bool
  | .is _ => false
  | .injectResp _ => true

/-- Modelled from the spec: does the creation request contain any
inject-typed predicate or response (or an injected frame resolver)? -/
def requestHasInjection (r : CreateRequest) : Bool :=
  r.stubs.any (fun s =>
    s.predicates.any predicateUsesInjection ||
    s.responses.any responseUsesInjection) ||
  r.injectedResolver

/-- Build the runtime stub from its declaration: the use-counter starts
at zero and the mutable call state starts empty. -/
def stubOfDef (d : StubDef) : Stub :=
  { predicates := d.predicates, responses := d.responses }

/-- Modelled from the spec: build a freshly created imposter from a
creation request.  All per-stub counters and call state are freshly
initialised, so deleting and recreating an imposter resets them. -/
def imposterOfRequest (r : CreateRequest) : Imposter :=
  { stubs := r.stubs.map stubOfDef }

/-- Process-wide state: the ports currently bound by running
imposters. -/
structure ServerState where
  boundPorts : List Nat
deriving DecidableEq, Repr

/-- Modelled from the spec: imposter creation with up-front validation
(the Imposter Manager is not under `src/`).  When injection execution is
administratively disabled and the request uses injection, creation
fails at validation time with the structured "invalid injection" error
and no socket is bound; otherwise the port is bound. -/
def createImposter (allowInjection : Bool) (st : ServerState)
    (r : CreateRequest) : Except ValidationError ServerState :=
  if !allowInjection && requestHasInjection r then
    .error { code := "invalid injection" }
  else
    .ok { boundPorts := r.port :: st.boundPorts }

/-! ### Asynchronous response completion (modelled from the spec, §4.3,
§5, §6) -/

/-- Observable events while resolving an asynchronous injected response
(four-argument form): the injected code may return a value directly
(`ret`), it eventually invokes the completion callback with the payload
(`callback`), and the resolver sends the client-visible reply
(`reply`). -/
inductive AsyncEvent
  | ret (v : Option Payload)
  | callback (p : Payload)
  | reply (p : Payload)

/-- Resolver state while waiting on an asynchronous injection: waiting
for the completion callback, completed with a payload, or replied. -/
inductive AsyncState
  | waiting
  | completed (p : Payload)
  | replied (p : Payload)

/-- Modelled from the spec: the Response Resolver's completion protocol
for the four-argument asynchronous form.  A direct return value is not
interpreted as the response (it leaves the resolver waiting); only the
completion callback carries the payload, and the reply can be sent only
once completed, with exactly that payload. -/
inductive AsyncStep : AsyncState → AsyncEvent → AsyncState → Prop
  | ignoreReturn (v : Option Payload) :
      AsyncStep .waiting (.ret v) .waiting
  | complete (p : Payload) :
      AsyncStep .waiting (.callback p) (.completed p)
  | send (p : Payload) :
      AsyncStep (.completed p) (.reply p) (.replied p)

/-- A trace of the asynchronous-completion protocol: successive states
related by `AsyncStep` under the listed events. -/
inductive AsyncTrace : AsyncState → List AsyncEvent → AsyncState → Prop
  | nil (s : AsyncState) : AsyncTrace s [] s
  | cons {s s' s'' : AsyncState} {e : AsyncEvent} {es : List AsyncEvent} :
      AsyncStep s e s' → AsyncTrace s' es s'' →
      AsyncTrace s (e :: es) s''

/-! ### Iterated matching and concrete scenarios from the functional
test -/

/-- The stub after `n` consecutive matches answered by it (each match
consumes one response and advances the use-counter). -/
def stubAfterMatches (msg : Msg) (s : Stub) : Nat → Stub
  | 0 => s
  | n + 1 => (respondWith msg (stubAfterMatches msg s n)).2

/-- The imposter after `n` requests carrying the same message. -/
def imposterAfter (imp : Imposter) (msg : Msg) : Nat → Imposter
  | 0 => imp
  | n + 1 => (handleMessage (imposterAfter imp msg n) msg).2

/-- The payload returned for the `n`-th request (1-indexed) when the
same message is sent repeatedly. -/
def nthPayload (imp : Imposter) (msg : Msg) (n : Nat) : Payload :=
  (handleMessage (imposterAfter imp msg (n - 1)) msg).1

/-- Modelled from the spec: the stateful injected response of the
functional test "should allow javascript injection to keep state
between requests" — it initialises `state.calls` to 0 if absent,
increments it, and returns it rendered as a string. -/
def counterInject (msg : Msg) (st : CallState) : Payload × CallState :=
  let calls := (stateGet st "calls").getD 0 + 1
  (toString calls, stateSet st "calls" calls)

/-- The creation request of the stateful-counter test: a single stub
with no predicates and the counter injection as only response. -/
def counterRequest : CreateRequest :=
  { port := 3000,
    stubs := [{ predicates := [], responses := [.injectResp counterInject] }] }

/-- The expected call state of the counter stub after `k` requests. -/
def counterStateAfter : Nat → CallState
  | 0 => []
  | k + 1 => [("calls", k + 1)]

/-- Create the counter imposter, send the message twice, delete the
imposter (discarding all per-stub state), recreate it from the same
request and send once more; collect the three payloads observed. -/
def recreateScenario (msg : Msg) : Payload × Payload × Payload :=
  let imp1 := imposterOfRequest counterRequest
  let r1 := handleMessage imp1 msg
  let r2 := handleMessage r1.2 msg
  let imp2 := imposterOfRequest counterRequest
  let r3 := handleMessage imp2 msg
  (r1.1, r2.1, r3.1)

/-- Modelled from the spec: the injected predicate of the functional
test "should allow javascript predicate for matching" — true exactly
when the inbound data equals "test". -/
def testPredicate : Predicate :=
  .injectPred (fun m => .ok (m == "test"))

/-- The stub declaration guarded by `testPredicate`, answering with the
literal payload "MATCHED". -/
def matchStubDef : StubDef :=
  { predicates := [testPredicate], responses := [.is "MATCHED"] }

/-- The imposter of the predicate-matching test. -/
def matchImposter : Imposter :=
  imposterOfRequest { port := 3000, stubs := [matchStubDef] }

/-- Modelled from the spec: the synchronous injected response of the
functional test "should allow synchronous javascript injection for
responses" — append " INJECTED" to the inbound payload. -/
def appendInject (msg : Msg) (st : CallState) : Payload × CallState :=
  (msg ++ " INJECTED", st)

/-- The imposter of the synchronous-injection test: one stub, no
predicates, the appending injection as only response. -/
def appendImposter : Imposter :=
  imposterOfRequest
    { port := 3000,
      stubs := [{ predicates := [], responses := [.injectResp appendInject] }] }

/-! ## Lemmas about the stub engine -/

theorem respondWith_useCount (msg : Msg) (s : Stub) :
    (respondWith msg s).2.useCount = s.useCount + 1 := by
  unfold respondWith
  cases responseUsed s <;> simp

theorem respondWith_responses (msg : Msg) (s : Stub) :
    (respondWith msg s).2.responses = s.responses := by
  unfold respondWith
  cases responseUsed s <;> simp

theorem stubAfterMatches_useCount (msg : Msg) (s : Stub) (n : Nat) :
    (stubAfterMatches msg s n).useCount = s.useCount + n := by
  induction n with
  | zero => rfl
  | succ n ih => simp [stubAfterMatches, respondWith_useCount, ih]; omega

theorem stubAfterMatches_responses (msg : Msg) (s : Stub) (n : Nat) :
    (stubAfterMatches msg s n).responses = s.responses := by
  induction n with
  | zero => rfl
  | succ n ih => simp [stubAfterMatches, respondWith_responses, ih]

theorem evalPredList_true_iff (msg : Msg) (ps : List Predicate) :
    (evalPredList msg ps).1 = true ↔ ∀ p ∈ ps, evalPredicate p msg = .ok true := by
  induction ps with
  | nil => simp [evalPredList]
  | cons p ps ih =>
    cases h : evalPredicate p msg with
    | ok b =>
      cases b
      · simp only [evalPredList, h]
        constructor
        · intro hc; cases hc
        · intro hall
          have := hall p (List.mem_cons_self p ps)
          rw [h] at this
          cases this
      · simp [evalPredList, h, ih]
    | err =>
      simp only [evalPredList, h]
      constructor
      · intro hc; cases hc
      · intro hall
        have := hall p (List.mem_cons_self p ps)
        rw [h] at this
        cases this

theorem handleStubs_none_iff (msg : Msg) (stubs : List Stub) :
    handleStubs msg stubs = none ↔ ∀ s ∈ stubs, stubMatches msg s = false := by
  induction stubs with
  | nil => simp [handleStubs]
  | cons s rest ih =>
    cases h : stubMatches msg s with
    | true =>
      simp only [handleStubs, h, if_true]
      constructor
      · intro hc; cases hc
      · intro hall
        have := hall s (List.mem_cons_self s rest)
        rw [h] at this
        cases this
    | false =>
      cases hr : handleStubs msg rest with
      | none =>
        simp only [handleStubs, h, Bool.false_eq_true, if_false, hr]
        simp only [hr] at ih
        constructor
        · intro _ t ht
          rcases List.mem_cons.mp ht with h1 | h2
          · rw [h1]; exact h
          · exact (ih.mp trivial) t h2
        · intro _; trivial
      | some pr =>
        simp only [handleStubs, h, Bool.false_eq_true, if_false, hr]
        constructor
        · intro hc; cases hc
        · intro hall
          have : handleStubs msg rest = none :=
            ih.mpr (fun t ht => hall t (List.mem_cons_of_mem s ht))
          rw [hr] at this
          cases this

theorem handleStubs_some_spec (msg : Msg) (stubs : List Stub) :
    ∀ (p : Payload) (stubs' : List Stub),
    handleStubs msg stubs = some (p, stubs') →
    ∃ pre s post, stubs = pre ++ s :: post ∧
      (∀ t ∈ pre, stubMatches msg t = false) ∧
      stubMatches msg s = true ∧
      p = (respondWith msg s).1 ∧
      stubs' = pre ++ (respondWith msg s).2 :: post := by
  induction stubs with
  | nil => intro p stubs' h; simp [handleStubs] at h
  | cons s rest ih =>
    intro p stubs' h
    cases hm : stubMatches msg s with
    | true =>
      simp only [handleStubs, hm, if_true, Option.some.injEq, Prod.mk.injEq] at h
      exact ⟨[], s, rest, rfl, by simp, hm, h.1.symm, by simp [h.2.symm]⟩
    | false =>
      simp only [handleStubs, hm, Bool.false_eq_true, if_false] at h
      cases hr : handleStubs msg rest with
      | none => rw [hr] at h; cases h
      | some pr =>
        rw [hr] at h
        simp only [Option.some.injEq, Prod.mk.injEq] at h
        obtain ⟨pre, t, post, e1, e2, e3, e4, e5⟩ := ih pr.1 pr.2 (by rw [hr])
        refine ⟨s :: pre, t, post, by simp [e1], ?_, e3, by rw [← h.1, e4], ?_⟩
        · intro u hu
          rcases List.mem_cons.mp hu with h1 | h2
          · rw [h1]; exact hm
          · exact e2 u h2
        · rw [← h.2, e5]; rfl

theorem evalPredList_error_spec (msg : Msg) (ps₁ : List Predicate)
    (perr : Predicate) (ps₂ : List Predicate)
    (h₁ : ∀ p ∈ ps₁, evalPredicate p msg = .ok true)
    (h₂ : evalPredicate perr msg = .err) :
    evalPredList msg (ps₁ ++ perr :: ps₂) =
      (false, List.replicate ps₁.length .isTrue ++ [.isError]) := by
  induction ps₁ with
  | nil => simp [evalPredList, h₂]
  | cons p ps ih =>
    have hp := h₁ p (List.mem_cons_self p ps)
    have ih' := ih (fun q hq => h₁ q (List.mem_cons_of_mem p hq))
    simp [evalPredList, hp, ih', List.replicate_succ]

/-! ## Claim theorems for the predicate evaluator -/

/-- C4: stub selection is a linear scan in declaration order.  A stub
matches exactly when all its predicates evaluate to true (implicit AND,
short-circuiting structurally on the first non-true outcome); the
selected stub is the first whose predicates are all true, every stub
before it failing to match; if no stub matches, `handleStubs` signals
`none` ("no stub matched") and `handleMessage` falls back to the
imposter-level default response. -/
theorem stub_selection_first_match :
    (∀ (msg : Msg) (s : Stub),
      stubMatches msg s = true ↔ ∀ p ∈ s.predicates, evalPredicate p msg = .ok true)
    ∧ (∀ (msg : Msg) (stubs : List Stub),
      handleStubs msg stubs = none ↔ ∀ s ∈ stubs, stubMatches msg s = false)
    ∧ (∀ (msg : Msg) (stubs : List Stub) (p : Payload) (stubs' : List Stub),
      handleStubs msg stubs = some (p, stubs') →
      ∃ pre s post, stubs = pre ++ s :: post ∧
        (∀ t ∈ pre, stubMatches msg t = false) ∧
        stubMatches msg s = true ∧
        p = (respondWith msg s).1 ∧
        stubs' = pre ++ (respondWith msg s).2 :: post)
    ∧ (∀ (msg : Msg) (imp : Imposter),
      handleStubs msg imp.stubs = none →
      handleMessage imp msg = (imp.defaultResponse, imp)) := by
  refine ⟨fun msg s => evalPredList_true_iff msg s.predicates,
          handleStubs_none_iff,
          fun msg stubs p stubs' => handleStubs_some_spec msg stubs p stubs',
          fun msg imp h => ?_⟩
  simp [handleMessage, h]

/-- Closed instance of C4: on an imposter with no stubs, no stub
matches and the reply is the imposter-level default. -/
theorem stub_selection_first_match_witness :
    handleMessage { stubs := [], defaultResponse := "ack" } "m" =
      ("ack", { stubs := [], defaultResponse := "ack" }) :=
  stub_selection_first_match.2.2.2 "m" { stubs := [], defaultResponse := "ack" } rfl

/-- C9: when an injected predicate throws or returns a non-boolean
(`.err`), evaluation of the stub's remaining predicates is aborted (the
recorded outcomes cover only the predicates before the error, each
true, followed by the single logged `.isError` entry), the stub is
treated as not matching, and the scan continues with the next stub in
order: handling the stub list starting with the erroring stub gives
exactly the result of handling the remaining stubs, so the imposter
keeps serving the request. -/
theorem predicate_error_skips_stub (msg : Msg) (ps₁ : List Predicate)
    (perr : Predicate) (ps₂ : List Predicate) (rs : List Response)
    (c : Nat) (st : CallState)
    (h₁ : ∀ p ∈ ps₁, evalPredicate p msg = .ok true)
    (h₂ : evalPredicate perr msg = .err) :
    evalPredList msg (ps₁ ++ perr :: ps₂) =
      (false, List.replicate ps₁.length .isTrue ++ [.isError])
    ∧ stubMatches msg ⟨ps₁ ++ perr :: ps₂, rs, c, st⟩ = false
    ∧ ∀ post : List Stub,
        handleStubs msg (⟨ps₁ ++ perr :: ps₂, rs, c, st⟩ :: post) =
          (handleStubs msg post).map
            (fun pr => (pr.1, (⟨ps₁ ++ perr :: ps₂, rs, c, st⟩ : Stub) :: pr.2)) := by
  have he := evalPredList_error_spec msg ps₁ perr ps₂ h₁ h₂
  have hm : stubMatches msg ⟨ps₁ ++ perr :: ps₂, rs, c, st⟩ = false := by
    simp [stubMatches, he]
  refine ⟨he, hm, fun post => ?_⟩
  simp only [handleStubs, hm, Bool.false_eq_true, if_false]
  cases handleStubs msg post <;> rfl

/-- Closed instance of C9: a stub whose single predicate errors is
skipped and the next stub answers. -/
theorem predicate_error_skips_stub_witness :
    (∀ p ∈ ([] : List Predicate), evalPredicate p "m" = .ok true)
    ∧ handleStubs "m"
        [⟨[.injectPred fun _ => .err], [.is "never"], 0, []⟩,
         ⟨[], [.is "fallback"], 0, []⟩] =
      some ("fallback", [⟨[.injectPred fun _ => .err], [.is "never"], 0, []⟩,
                         ⟨[], [.is "fallback"], 1, []⟩]) := by
  refine ⟨by simp, ?_⟩
  have h := (predicate_error_skips_stub "m" [] (.injectPred fun _ => .err) []
    [.is "never"] 0 [] (by simp) rfl).2.2
    [⟨[], [.is "fallback"], 0, []⟩]
  rw [List.nil_append] at h
  rw [h]
  rfl

/-- C10: a stub declaring no predicates matches every incoming message
(the implicit AND over an empty predicate list is true), so an imposter
whose only stub has an empty predicate list answers every request with
that stub's response rather than the default. -/
theorem empty_predicates_match_all (msg : Msg) (s : Stub) (d : Payload)
    (h : s.predicates = []) :
    stubMatches msg s = true ∧
    handleMessage { stubs := [s], defaultResponse := d } msg =
      ((respondWith msg s).1,
       { stubs := [(respondWith msg s).2], defaultResponse := d }) := by
  have hm : stubMatches msg s = true := by
    simp [stubMatches, h, evalPredList]
  exact ⟨hm, by simp [handleMessage, handleStubs, hm]⟩

/-- Closed instance of C10: a predicate-free stub answers with its own
response, not the default. -/
theorem empty_predicates_match_all_witness :
    (⟨[], [Response.is "hello"], 0, []⟩ : Stub).predicates = [] ∧
    (stubMatches "anything" ⟨[], [Response.is "hello"], 0, []⟩ = true ∧
      handleMessage { stubs := [⟨[], [Response.is "hello"], 0, []⟩],
                      defaultResponse := "" } "anything" =
        ((respondWith "anything" ⟨[], [Response.is "hello"], 0, []⟩).1,
         { stubs := [(respondWith "anything" ⟨[], [Response.is "hello"], 0, []⟩).2],
           defaultResponse := "" })) :=
  ⟨rfl, empty_predicates_match_all "anything" ⟨[], [Response.is "hello"], 0, []⟩ "" rfl⟩

/-- C7: for the imposter whose stub is guarded by the injected
predicate "data equals "test"", the stub matches exactly the message
"test"; that request is answered with the literal configured payload
"MATCHED", and every other request falls through to the empty default
rather than being answered by the stub. -/
theorem inject_predicate_matches_only_test :
    (∀ msg : Msg, stubMatches msg (stubOfDef matchStubDef) = (msg == "test"))
    ∧ (handleMessage matchImposter "test").1 = "MATCHED"
    ∧ ∀ msg : Msg, msg ≠ "test" → (handleMessage matchImposter msg).1 = "" := by
  have hsm : ∀ msg : Msg, stubMatches msg (stubOfDef matchStubDef) = (msg == "test") := by
    intro msg
    cases h : (msg == "test") <;>
      simp [stubMatches, stubOfDef, matchStubDef, testPredicate, evalPredList,
            evalPredicate, h]
  refine ⟨hsm, rfl, fun msg hne => ?_⟩
  have hb : (msg == "test") = false := by
    simpa using hne
  have hm : stubMatches msg (stubOfDef matchStubDef) = false := by
    rw [hsm msg, hb]
  simp [handleMessage, matchImposter, imposterOfRequest, handleStubs, hm]

/-- Closed instance of C7: a message different from "test" gets the
empty default reply. -/
theorem inject_predicate_matches_only_test_witness :
    (handleMessage matchImposter "other").1 = "" :=
  inject_predicate_matches_only_test.2.2 "other" (by decide)

/-- C8: the synchronous injected response appending " INJECTED" makes
the reply for every inbound payload `p` equal `p ++ " INJECTED"`; in
particular "request" yields "request INJECTED". -/
theorem sync_injection_appends :
    (∀ p : Msg, (handleMessage appendImposter p).1 = p ++ " INJECTED")
    ∧ (handleMessage appendImposter "request").1 = "request INJECTED" := by
  have h : ∀ p : Msg, (handleMessage appendImposter p).1 = p ++ " INJECTED" := by
    intro p
    simp [handleMessage, handleStubs, appendImposter, imposterOfRequest, stubOfDef,
          stubMatches, evalPredList, respondWith, responseUsed, appendInject]
  exact ⟨h, h "request"⟩

/-- A concrete two-response stub used to instantiate the round-robin
theorem. -/
def twoResponseStub : Stub :=
  { predicates := [], responses := [.is "a", .is "b"] }

/-- C3: responses are consumed round-robin per match.  For a fresh stub
with a non-empty response list of length L, the Nth match (N ≥ 1)
consumes response[(N-1) mod L]; a stub whose only response is is-typed
returns the identical payload on every match; and after exhausting the
list the stub wraps back to its first response. -/
theorem round_robin_responses (msg : Msg) (s : Stub)
    (hL : 0 < s.responses.length) (hc : s.useCount = 0) :
    (∀ N, 1 ≤ N →
      responseUsed (stubAfterMatches msg s (N - 1)) =
        s.responses.getD ((N - 1) % s.responses.length) (.is ""))
    ∧ (∀ p, s.responses = [.is p] →
        ∀ n, (respondWith msg (stubAfterMatches msg s n)).1 = p)
    ∧ responseUsed (stubAfterMatches msg s s.responses.length) =
        s.responses.getD 0 (.is "") := by
  have hused : ∀ n, responseUsed (stubAfterMatches msg s n) =
      s.responses.getD (n % s.responses.length) (.is "") := by
    intro n
    unfold responseUsed
    rw [stubAfterMatches_useCount, stubAfterMatches_responses, hc, Nat.zero_add]
  refine ⟨fun N _ => hused (N - 1), ?_, ?_⟩
  · intro p hp n
    have h1 : responseUsed (stubAfterMatches msg s n) = .is p := by
      rw [hused n, hp]
      simp [Nat.mod_one]
    unfold respondWith
    rw [h1]
  · rw [hused, Nat.mod_self]

/-- Closed instance of C3: on the third match of a fresh two-response
stub, the first response is used again (wrap-around). -/
theorem round_robin_responses_witness :
    0 < twoResponseStub.responses.length ∧
    responseUsed (stubAfterMatches "m" twoResponseStub (3 - 1)) = Response.is "a" :=
  ⟨by decide,
   ((round_robin_responses "m" twoResponseStub (by decide) rfl).1 3
      (by decide)).trans rfl⟩

/-- The counter imposter freshly created from `counterRequest`. -/
def counterImposter : Imposter :=
  imposterOfRequest counterRequest

theorem counterImposter_after (msg : Msg) (k : Nat) :
    imposterAfter counterImposter msg k =
      { stubs := [{ predicates := [], responses := [.injectResp counterInject],
                    useCount := k, state := counterStateAfter k }] } := by
  induction k with
  | zero => rfl
  | succ k ih =>
    show (handleMessage (imposterAfter counterImposter msg k) msg).2 = _
    rw [ih]
    cases k with
    | zero =>
      simp [handleMessage, handleStubs, stubMatches, evalPredList, respondWith,
            responseUsed, counterInject, stateGet, stateSet, counterStateAfter]
    | succ j =>
      simp [handleMessage, handleStubs, stubMatches, evalPredList, respondWith,
            responseUsed, counterInject, stateGet, stateSet, counterStateAfter,
            Nat.mod_one]

/-- C5: a stateful injected response incrementing a per-stub counter.
The call state persists across requests, so the nth request to the
freshly created counter imposter yields the string rendering of n: the
first request yields "1" and the second "2".  Deleting the imposter and
recreating it from the same request reinitialises the per-stub state,
so the scenario create/send/send/delete/recreate/send observes the
payloads ("1", "2", "1"). -/
theorem stateful_counter_injection (msg : Msg) :
    (∀ n, 1 ≤ n → nthPayload counterImposter msg n = toString n)
    ∧ recreateScenario msg = ("1", "2", "1") := by
  have hn : ∀ n, 1 ≤ n → nthPayload counterImposter msg n = toString n := by
    intro n hn1
    unfold nthPayload
    rw [counterImposter_after]
    cases n with
    | zero => cases hn1
    | succ m =>
      cases m with
      | zero =>
        simp [handleMessage, handleStubs, stubMatches, evalPredList, respondWith,
              responseUsed, counterInject, stateGet, counterStateAfter]
      | succ j =>
        simp [handleMessage, handleStubs, stubMatches, evalPredList, respondWith,
              responseUsed, counterInject, stateGet, counterStateAfter, Nat.mod_one]
  refine ⟨hn, ?_⟩
  have e1 : recreateScenario msg =
      (nthPayload counterImposter msg 1,
       nthPayload counterImposter msg 2,
       nthPayload counterImposter msg 1) := rfl
  rw [e1, hn 1 (by decide), hn 2 (by decide)]
  rfl

/-- Closed instance of C5: the first two requests yield "1" then "2",
and after delete/recreate the counter restarts at "1". -/
theorem stateful_counter_injection_witness :
    nthPayload counterImposter "request" 2 = "2"
    ∧ recreateScenario "request" = ("1", "2", "1") :=
  ⟨((stateful_counter_injection "request").1 2 (by decide)).trans rfl,
   (stateful_counter_injection "request").2⟩

/-- C2: when injection execution is administratively disabled, creating
an imposter whose request contains an inject-typed predicate or
response fails at validation time with the structured error code
"invalid injection", and the requested port is never bound: creation
never returns a success state. -/
theorem disabled_injection_rejected (st : ServerState) (r : CreateRequest)
    (h : requestHasInjection r = true) :
    createImposter false st r = .error { code := "invalid injection" }
    ∧ ∀ st' : ServerState, createImposter false st r ≠ .ok st' := by
  constructor
  · simp [createImposter, h]
  · intro st' hc
    simp [createImposter, h] at hc

/-- Closed instance of C2: the counter request (which uses an injected
response) is rejected with "invalid injection" when injection is
disabled. -/
theorem disabled_injection_rejected_witness :
    createImposter false { boundPorts := [] } counterRequest =
      .error { code := "invalid injection" } :=
  (disabled_injection_rejected { boundPorts := [] } counterRequest rfl).1

/-! ## Lemmas about the Frame Assembler -/

theorem feed_no_emit (resolver : Bytes → Bool) :
    ∀ (chunks : List Bytes) (buf0 : Bytes) (em0 inv0 : List Bytes),
    (∀ k, 1 ≤ k → k ≤ chunks.length →
      resolver (buf0 ++ (chunks.take k).flatten) = false) →
    List.foldl (feedChunk resolver) ⟨buf0, em0, inv0⟩ chunks =
      ⟨buf0 ++ chunks.flatten, em0,
        inv0 ++ (List.range chunks.length).map
          (fun k => buf0 ++ (chunks.take (k + 1)).flatten)⟩ := by
  intro chunks
  induction chunks with
  | nil =>
    intro buf0 em0 inv0 _
    simp
  | cons c cs ih =>
    intro buf0 em0 inv0 h
    have h1 : resolver (buf0 ++ c) = false := by
      have := h 1 (by omega) (by simp)
      simpa using this
    rw [List.foldl_cons]
    have hfc : feedChunk resolver ⟨buf0, em0, inv0⟩ c =
        ⟨buf0 ++ c, em0, inv0 ++ [buf0 ++ c]⟩ := by
      simp [feedChunk, h1]
    rw [hfc, ih (buf0 ++ c) em0 (inv0 ++ [buf0 ++ c]) ?hrec]
    case hrec =>
      intro k hk1 hk2
      have := h (k + 1) (by omega) (by simp; omega)
      simpa [List.take_succ_cons, List.flatten_cons, List.append_assoc] using this
    simp only [List.length_cons, List.range_succ_eq_map]
    simp [List.map_map, Function.comp_def, List.take_succ_cons, List.flatten_cons,
          List.append_assoc]

/-- C1: for every byte sequence `s` and every partition of `s` into
(nonempty) chunks, feeding the chunks to the Frame Assembler with a
boundary resolver that accepts exactly the complete sequence makes it
emit precisely the byte-for-byte concatenation `s`, independent of the
fragmentation; moreover the resolver is only ever invoked on a faithful
concatenation of everything received so far (the flattening of the
first k chunks, for some 1 ≤ k ≤ number of chunks). -/
theorem frame_assembler_faithful (resolver : Bytes → Bool) (s : Bytes)
    (chunks : List Bytes)
    (hne : chunks ≠ [])
    (hchunks : ∀ c ∈ chunks, c ≠ [])
    (hflat : chunks.flatten = s)
    (hs : resolver s = true)
    (hproper : ∀ b t, b ++ t = s → t ≠ [] → resolver b = false) :
    (feedChunks resolver chunks).emitted = [s]
    ∧ ∀ b ∈ (feedChunks resolver chunks).invoked,
        ∃ k, 1 ≤ k ∧ k ≤ chunks.length ∧ b = (chunks.take k).flatten := by
  rcases chunks.eq_nil_or_concat' with hnil | ⟨init, last, rfl⟩
  · exact absurd hnil hne
  have hlast : last ≠ [] := hchunks last (by simp)
  have hinit : ∀ k, 1 ≤ k → k ≤ init.length →
      resolver ([] ++ (init.take k).flatten) = false := by
    intro k _ hk2
    rw [List.nil_append]
    refine hproper ((init.take k).flatten) ((init.drop k).flatten ++ last) ?_ ?_
    · rw [← List.append_assoc, ← List.flatten_append, List.take_append_drop, ← hflat,
          List.flatten_append]
      simp
    · intro hc
      exact hlast (List.append_eq_nil.mp hc).2
  have hstep : feedChunks resolver (init ++ [last]) =
      feedChunk resolver
        ⟨init.flatten, [],
          (List.range init.length).map (fun k => (init.take (k + 1)).flatten)⟩ last := by
    unfold feedChunks
    rw [List.foldl_append, feed_no_emit resolver init [] [] [] hinit]
    simp
  have hbuf : init.flatten ++ last = s := by
    rw [← hflat, List.flatten_append]
    simp
  have hres : resolver (init.flatten ++ last) = true := by rw [hbuf]; exact hs
  have hfinal : feedChunks resolver (init ++ [last]) =
      ⟨[], [s],
        ((List.range init.length).map (fun k => (init.take (k + 1)).flatten)) ++ [s]⟩ := by
    rw [hstep]
    simp [feedChunk, hres, hbuf, hs]
  rw [hfinal]
  refine ⟨rfl, ?_⟩
  intro b hb
  simp only [List.mem_append, List.mem_map, List.mem_range, List.mem_singleton] at hb
  rcases hb with ⟨k, hk, rfl⟩ | rfl
  · refine ⟨k + 1, by omega, by simp; omega, ?_⟩
    rw [List.take_append_of_le_length (by omega)]
  · refine ⟨init.length + 1, by omega, by simp, ?_⟩
    have : (init ++ [last]).take (init.length + 1) = init ++ [last] := by
      apply List.take_of_length_le
      simp
    rw [this, hflat]

/-- Closed instance of C1: the sequence [1,2,3,4] split into chunks
[1,2] and [3,4], with a resolver accepting only length-4 buffers, emits
exactly [1,2,3,4] and invokes the resolver only on faithful partial
concatenations. -/
theorem frame_assembler_faithful_witness :
    (feedChunks (fun b => b.length == 4) [[1, 2], [3, 4]]).emitted = [[1, 2, 3, 4]]
    ∧ ∀ b ∈ (feedChunks (fun b => b.length == 4) [[1, 2], [3, 4]]).invoked,
        ∃ k, 1 ≤ k ∧ k ≤ ([[1, 2], [3, 4]] : List Bytes).length ∧
          b = (([[1, 2], [3, 4]] : List Bytes).take k).flatten :=
  frame_assembler_faithful (fun b => b.length == 4) [1, 2, 3, 4] [[1, 2], [3, 4]]
    (by decide) (by decide) (by decide) (by decide)
    (by
      intro b t hbt ht
      have hlen : b.length + t.length = 4 := by
        have := congrArg List.length hbt
        simpa using this
      have htpos : 0 < t.length := List.length_pos.mpr ht
      simp only [beq_eq_false_iff_ne, ne_eq]
      omega)

/-! ## Lemmas about the asynchronous completion protocol -/

theorem asyncTrace_reply_after_callback :
    ∀ {st fin : AsyncState} {tr : List AsyncEvent},
    AsyncTrace st tr fin →
    ∀ {i : Nat} {p : Payload}, tr.get? i = some (.reply p) →
    (∃ j, j < i ∧ tr.get? j = some (.callback p)) ∨ st = .completed p := by
  intro st fin tr h
  induction h with
  | nil => intro i p hi; cases hi
  | cons hstep _ ih =>
    intro i p hi
    cases i with
    | zero =>
      simp only [List.get?_cons_zero, Option.some.injEq] at hi
      subst hi
      cases hstep
      exact Or.inr rfl
    | succ k =>
      simp only [List.get?_cons_succ] at hi
      rcases ih hi with ⟨j, hj, hget⟩ | hcomp
      · exact Or.inl ⟨j + 1, by omega, by simpa using hget⟩
      · cases hstep with
        | ignoreReturn v => cases hcomp
        | complete q =>
          cases hcomp
          exact Or.inl ⟨0, by omega, rfl⟩
        | send q => cases hcomp

/-- C6: for the four-argument asynchronous injected response form, the
reply is never sent before the injected code invokes the completion
callback — every trace of the completion protocol starting from the
waiting state in which a reply with payload `p` is sent contains an
earlier invocation of the completion callback, and with exactly that
payload; moreover a value returned directly by the injected function
(`ret`) leaves the resolver waiting and is never interpreted as the
response. -/
theorem async_reply_follows_callback :
    (∀ (tr : List AsyncEvent) (fin : AsyncState) (i : Nat) (p : Payload),
      AsyncTrace .waiting tr fin →
      tr.get? i = some (.reply p) →
      ∃ j, j < i ∧ tr.get? j = some (.callback p))
    ∧ ∀ (v : Option Payload) (st' : AsyncState),
      AsyncStep .waiting (.ret v) st' → st' = .waiting := by
  constructor
  · intro tr fin i p htr hi
    rcases asyncTrace_reply_after_callback htr hi with h | h
    · exact h
    · cases h
  · intro v st' hstep
    cases hstep
    rfl

/-- Closed instance of C6: in the trace where the injected code first
returns a (ignored) value, then fires the callback with "pong", then
the reply "pong" is sent, the callback precedes the reply. -/
theorem async_reply_follows_callback_witness :
    ∃ j, j < 2 ∧
      ([AsyncEvent.ret (some "ignored"), AsyncEvent.callback "pong",
        AsyncEvent.reply "pong"].get? j) = some (AsyncEvent.callback "pong") :=
  async_reply_follows_callback.1
    [AsyncEvent.ret (some "ignored"), AsyncEvent.callback "pong", AsyncEvent.reply "pong"]
    (.replied "pong") 2 "pong"
    (AsyncTrace.cons (AsyncStep.ignoreReturn (some "ignored"))
      (AsyncTrace.cons (AsyncStep.complete "pong")
        (AsyncTrace.cons (AsyncStep.send "pong") (AsyncTrace.nil _))))
    rfl

end Mountebank
